import Mathlib

/-!
Shallow embedding of the gocmd2 interactive-shell core.

The Go sources define a `Shell` owning a cobra root command (the Command
Namespace), a module registry (`commandModules`, `moduleCommands`,
`enabledModules`), a shared key/value state store, prompt handling, exit-hook
wrapping (`OnExit`), and a custom help function installed by the core module.

Go maps are modelled as association lists (`List (String × β)`) with
Go-map assignment/lookup semantics (`mapSet`, `mapFind?`, `mapGetD`: a lookup
of an absent key yields the zero value).  Iterating a Go map has unspecified
order; wherever the source ranges over a map in an order-sensitive position
(`GetEnabledModules`), the model is parameterised by the iteration sequence,
constrained to be a permutation of the map's entries.

A `*cobra.Command` is a heap object compared by pointer; the model gives each
command a numeric `id` playing the role of its address.  cobra's `AddCommand`
appends to the subcommand list and `RemoveCommand` drops every
pointer-identical entry, which is what `addCommands` / `removeCommands`
reproduce.  Command handlers (`Run` closures) are opaque to the shell except
for the core `exit` command and the wrappers `OnExit` layers on top of it, so
`RunAction` models exactly those: the original exit behaviour (print
"Goodbye!" then `os.Exit(0)`), an `OnExit` wrapper carrying an opaque hook
identified by a number, and an opaque tag for every other handler.
-/

set_option maxHeartbeats 1000000

namespace GoCmd2

/-- cobra `Command.Name()`: the `Use` string sliced up to the first space
(the whole string when it has no space). -/
def cmdNameOf (use : String) : String :=
  String.mk (use.data.takeWhile (fun c => !(c == ' ')))

/-- The part of a `Run` closure the shell can observe: the core exit
command's original behaviour, an `OnExit` wrapper around an inner action
(the wrapped hook is an opaque closure, identified by a number), or an
opaque handler (`other`) whose effects the core never inspects. -/
inductive RunAction : Type where
  | exitAction : RunAction
  | wrapped : Nat → RunAction → RunAction
  | other : Nat → RunAction
  deriving DecidableEq, Repr

/-- Observable events of executing a `Run` action: a hook firing, a
`fmt.Println`, and `os.Exit`. -/
inductive Event : Type where
  | hook : Nat → Event
  | println : String → Event
  | osExit : Nat → Event
  deriving DecidableEq, Repr

/-- Trace of events produced by running a command's `Run` action.  Opaque
handlers contribute no modelled events. -/
def runTrace : RunAction → List Event
  | .exitAction => [.println "Goodbye!", .osExit 0]
  | .wrapped h inner => .hook h :: runTrace inner
  | .other _ => []

/-- A `*cobra.Command`: `id` stands for the pointer identity, the remaining
fields are the ones the core reads (`Use`, `Short`, `Long`, `Aliases`,
`Run`). -/
structure Cmd : Type where
  id : Nat
  use : String
  short : String
  long : String
  aliases : List String
  run : RunAction
  deriving DecidableEq, Repr

/-- A registered command module as the shell sees it: its `Name()` and the
list returned by `GetCommands()`.  The `Initialize` hook is passed
separately where it matters (`RegisterModuleWith`). -/
structure CommandModule : Type where
  name : String
  commands : List Cmd
  deriving DecidableEq, Repr

/-- Go map lookup `v, ok := m[k]` on an association-list model. -/
def mapFind? (l : List (String × β)) (k : String) : Option β :=
  (l.find? (fun p => p.1 == k)).map (·.2)

/-- Go map lookup `m[k]` returning the zero value `d` when absent. -/
def mapGetD (l : List (String × β)) (k : String) (d : β) : β :=
  (mapFind? l k).getD d

/-- Go map assignment `m[k] = v`: overwrite the entry if the key is present,
otherwise add it. -/
def mapSet (l : List (String × β)) (k : String) (v : β) : List (String × β) :=
  if l.any (fun p => p.1 == k) then
    l.map (fun p => if p.1 == k then (k, v) else p)
  else
    l ++ [(k, v)]

/-- The `Shell` struct.  `rootCommands` is the root command's subcommand
table, `rlPrompt` the prompt last handed to the readline instance.  The
state-store value type `V` models Go's `interface{}`. -/
structure Shell (V : Type) : Type where
  rootCommands : List Cmd
  currentPrompt : String
  rlPrompt : String
  banner : String
  commandModules : List CommandModule
  enabledModules : List (String × Bool)
  moduleCommands : List (String × List Cmd)
  State : List (String × V)
  deriving Repr

/-- cobra `AddCommand` (single command): appends to the subcommand table. -/
def AddCommand (root : List Cmd) (c : Cmd) : List Cmd :=
  root ++ [c]

/-- cobra `RemoveCommand` (single command): removes every pointer-identical
entry; pointer identity is `Cmd.id`. -/
def RemoveCommand (root : List Cmd) (c : Cmd) : List Cmd :=
  root.filter (fun x => !(x.id == c.id))

/-- The `for _, cmd := range commands { s.rootCmd.AddCommand(cmd) }` loops. -/
def addCommands (root : List Cmd) (cs : List Cmd) : List Cmd :=
  cs.foldl AddCommand root

/-- The `for _, cmd := range ... { s.rootCmd.RemoveCommand(cmd) }` loops. -/
def removeCommands (root : List Cmd) (cs : List Cmd) : List Cmd :=
  cs.foldl RemoveCommand root

/-- The state `RegisterModule` has built at the moment it calls
`module.Initialize(s)`: module appended, its commands recorded under its
name, the module enabled, and its commands added to the root command. -/
def registerPre (s : Shell V) (m : CommandModule) : Shell V :=
  { s with
    commandModules := s.commandModules ++ [m]
    moduleCommands := mapSet s.moduleCommands m.name m.commands
    enabledModules := mapSet s.enabledModules m.name true
    rootCommands := addCommands s.rootCommands m.commands }

/-- `Shell.RegisterModule` with the module's `Initialize` hook made explicit:
the hook receives (and may mutate) the shell after `registerPre`.
(`updateCompleter`, which follows the hook, touches only the readline
completer, which is outside the modelled state.) -/
def RegisterModuleWith (hook : Shell V → Shell V) (s : Shell V) (m : CommandModule) : Shell V :=
  hook (registerPre s m)

/-- `Shell.RegisterModule` for a module whose `Initialize` hook does not
mutate the modelled shell state (as with the core module, whose hook only
installs the help function). -/
def RegisterModule (s : Shell V) (m : CommandModule) : Shell V :=
  RegisterModuleWith id s m

/-- The `for _, module := range s.commandModules` existence check shared by
`EnableModule` and `DisableModule`. -/
def moduleFound (s : Shell V) (moduleName : String) : Bool :=
  s.commandModules.any (fun m => m.name == moduleName)

/-- `Shell.IsModuleEnabled`: a plain Go map read, `false` when absent. -/
def IsModuleEnabled (s : Shell V) (moduleName : String) : Bool :=
  mapGetD s.enabledModules moduleName false

/-- `Shell.EnableModule`: `ModuleNotFound` error for an unregistered name,
no-op when already enabled, otherwise flip the flag and add the module's
recorded commands back to the root command. -/
def EnableModule (s : Shell V) (moduleName : String) : Option String × Shell V :=
  if !(moduleFound s moduleName) then
    (some ("module not found: " ++ moduleName), s)
  else if IsModuleEnabled s moduleName then
    (none, s)
  else
    (none, { s with
      enabledModules := mapSet s.enabledModules moduleName true
      rootCommands := addCommands s.rootCommands (mapGetD s.moduleCommands moduleName []) })

/-- `Shell.DisableModule`: `ProtectedModule` error for "core",
`ModuleNotFound` for an unregistered name, no-op when already disabled,
otherwise flip the flag and remove the module's recorded commands from the
root command. -/
def DisableModule (s : Shell V) (moduleName : String) : Option String × Shell V :=
  if moduleName == "core" then
    (some "cannot disable core module", s)
  else if !(moduleFound s moduleName) then
    (some ("module not found: " ++ moduleName), s)
  else if !(IsModuleEnabled s moduleName) then
    (none, s)
  else
    (none, { s with
      enabledModules := mapSet s.enabledModules moduleName false
      rootCommands := removeCommands s.rootCommands (mapGetD s.moduleCommands moduleName []) })

/-- `Shell.GetModules`: module names in registration order. -/
def GetModules (s : Shell V) : List String :=
  s.commandModules.map (·.name)

/-- `Shell.GetEnabledModules` ranges over the `enabledModules` Go map, whose
iteration order is unspecified; the model takes the iteration sequence
`iter` (a permutation of the map's entries) as a parameter and keeps the
names whose flag is true, in iteration order. -/
def GetEnabledModulesIter (iter : List (String × Bool)) : List String :=
  (iter.filter (·.2)).map Prod.fst

/-- `Shell.SetState`: lock, write, unlock.  The lock is the only concurrency
control; the single-step functional update models the write it protects. -/
def SetState (s : Shell V) (key : String) (value : V) : Shell V :=
  { s with State := mapSet s.State key value }

/-- `Shell.GetState`: `some v` models Go's `(v, true)`, `none` models
`(nil, false)`. -/
def GetState (s : Shell V) (key : String) : Option V :=
  mapFind? s.State key

/-- Go `unicode.IsSpace`: the Unicode White_Space code points — U+0009 to
U+000D, the space, NEL (U+0085), NBSP (U+00A0), OGHAM SPACE MARK (U+1680),
the U+2000 to U+200A spaces, LINE SEPARATOR (U+2028), PARAGRAPH SEPARATOR
(U+2029), NARROW NBSP (U+202F), MEDIUM MATHEMATICAL SPACE (U+205F) and
IDEOGRAPHIC SPACE (U+3000). -/
def goIsSpace (c : Char) : Bool :=
  c == ' ' || c == '\t' || c == '\n' || c == '\x0b' || c == '\x0c' || c == '\r' ||
    c == '\x85' || c == '\xa0' || c == '\u1680' ||
    (0x2000 ≤ c.val && c.val ≤ 0x200a) ||
    c == '\u2028' || c == '\u2029' || c == '\u202f' || c == '\u205f' || c == '\u3000'

/-- Go `strings.TrimSpace`: drop leading and trailing whitespace. -/
def goTrimSpace (str : String) : String :=
  String.mk (((str.data.reverse.dropWhile goIsSpace).reverse).dropWhile goIsSpace)

/-- `Shell.SetPrompt`: stores `prompt + " "` and passes the same string to
`rl.SetPrompt`. -/
def SetPrompt (s : Shell V) (prompt : String) : Shell V :=
  { s with currentPrompt := prompt ++ " ", rlPrompt := prompt ++ " " }

/-- `Shell.GetPrompt`: `strings.TrimSpace(s.currentPrompt)`. -/
def GetPrompt (s : Shell V) : String :=
  goTrimSpace s.currentPrompt

/-- The loop body of `Shell.OnExit`: find the first root command named
"exit" and replace its `Run` with a wrapper running the hook first and the
original `Run` afterwards; commands after the first match are untouched
(the Go loop breaks). -/
def wrapExit (root : List Cmd) (hookId : Nat) : List Cmd :=
  match root with
  | [] => []
  | c :: rest =>
    if cmdNameOf c.use = "exit" then
      { c with run := .wrapped hookId c.run } :: rest
    else
      c :: wrapExit rest hookId

/-- `Shell.OnExit fn`: the registered hook is an opaque closure, identified
here by a number. -/
def OnExit (s : Shell V) (hookId : Nat) : Shell V :=
  { s with rootCommands := wrapExit s.rootCommands hookId }

/-- A sequence of `OnExit` registrations, first registered first. -/
def applyOnExits (s : Shell V) (hookIds : List Nat) : Shell V :=
  hookIds.foldl OnExit s

/-- Executing the built-in `exit` command: cobra dispatches to the first
root command named "exit" and runs its `Run`; `none` if no such command. -/
def exitTrace (s : Shell V) : Option (List Event) :=
  (s.rootCommands.find? (fun c => cmdNameOf c.use == "exit")).map (fun c => runTrace c.run)

/-- The four commands the core module's `GetCommands` builds, with ids
standing for the four fresh heap allocations. -/
def exitCmd : Cmd :=
  { id := 0, use := "exit", short := "Exit the shell", long := "", aliases := [],
    run := .exitAction }

def modulesCmd : Cmd :=
  { id := 1, use := "modules", short := "List available modules", long := "", aliases := [],
    run := .other 1 }

def enableCmd : Cmd :=
  { id := 2, use := "enable [module]", short := "Enable a module", long := "", aliases := [],
    run := .other 2 }

def disableCmd : Cmd :=
  { id := 3, use := "disable [module]", short := "Disable a module", long := "", aliases := [],
    run := .other 3 }

/-- The core module (`core.New()`): name "core" and its four commands. -/
def coreModule : CommandModule :=
  { name := "core", commands := [exitCmd, modulesCmd, enableCmd, disableCmd] }

/-- The shell `NewShell` builds before registering the core module: default
prompt "> ", empty registry, namespace and state store. -/
def emptyShell (banner : String) : Shell V :=
  { rootCommands := []
    currentPrompt := "> "
    rlPrompt := "> "
    banner := banner
    commandModules := []
    enabledModules := []
    moduleCommands := []
    State := [] }

/-- `NewShell`: the fresh shell with the core module registered (the core
module's `Initialize` installs the help function and does not touch the
modelled state). -/
def initShell : Shell V :=
  RegisterModule (emptyShell "") coreModule

/-- The spec's example "timer" module: commands `time` and `reset`, with
fresh ids. -/
def timerModule : CommandModule :=
  { name := "timer"
    commands :=
      [{ id := 10, use := "time", short := "Show the time", long := "", aliases := [],
         run := .other 10 },
       { id := 11, use := "reset", short := "Reset the timer", long := "", aliases := [],
         run := .other 11 }] }

/-! ### The help composer (`Module.InitializeHelp` in the core module) -/

/-- Go `strings.Join`. -/
def goJoin (sep : String) : List String → String
  | [] => ""
  | [x] => x
  | x :: rest => x ++ sep ++ goJoin sep rest

/-- cobra `Command.NameAndAliases()`: the command name and all aliases
joined into one display string with ", ". -/
def NameAndAliases (c : Cmd) : String :=
  goJoin ", " (cmdNameOf c.use :: c.aliases)

/-- The grouped help's inner loop: look the command up among the root
command's subcommands by name (first match, then break). -/
def presentLookup (s : Shell V) (c : Cmd) : Option Cmd :=
  s.rootCommands.find? (fun rc => cmdNameOf rc.use == cmdNameOf c.use)

/-- One entry of the `modules` map the grouped help builds from
`GetModuleCommands()`: absent when the module is disabled or unknown,
otherwise the module's recorded commands that resolve in the root command.
(The build ranges over a Go map, but its result is keyed, so iteration
order does not matter.) -/
def modulesMapEntry (s : Shell V) (moduleName : String) : Option (List Cmd) :=
  if IsModuleEnabled s moduleName then
    (mapFind? s.moduleCommands moduleName).map (fun cmds => cmds.filterMap (presentLookup s))
  else
    none

/-- The root command's `help` subcommand (cobra registers it on execute;
the grouped help looks it up by name). -/
def helpLookup (s : Shell V) : Option Cmd :=
  s.rootCommands.find? (fun rc => cmdNameOf rc.use == "help")

/-- The `modules` map after the special case appending the `help` command
to the core module's group. -/
def modulesMapFinal (s : Shell V) (moduleName : String) : Option (List Cmd) :=
  match helpLookup s with
  | some helpC =>
    if moduleName = "core" then
      some (((modulesMapEntry s "core").getD []) ++ [helpC])
    else
      modulesMapEntry s moduleName
  | none => modulesMapEntry s moduleName

/-- The grouped help's display loop: for each name `GetEnabledModules`
yields (in map-iteration order `iter`), emit a group unless the map has no
entry or an empty one. -/
def helpGroups (s : Shell V) (iter : List (String × Bool)) : List (String × List Cmd) :=
  (GetEnabledModulesIter iter).filterMap (fun moduleName =>
    match modulesMapFinal s moduleName with
    | none => none
    | some [] => none
    | some cmds => some (moduleName, cmds))

/-- The trailing "Disabled modules" list: registration order, disabled
only. -/
def disabledModulesList (s : Shell V) : List String :=
  (GetModules s).filter (fun n => !(IsModuleEnabled s n))

/-- The single-command detail view's scan: first root subcommand whose
`Name()` or whose joined `NameAndAliases()` display string equals the
requested token.  (The source compares the token against the joined
string, not against each alias.) -/
def helpDetailFound (s : Shell V) (cmdName : String) : Option Cmd :=
  s.rootCommands.find? (fun sub => cmdNameOf sub.use == cmdName || NameAndAliases sub == cmdName)

/-- The lines the single-command detail view prints. -/
def helpDetailOutput (s : Shell V) (cmdName : String) : List String :=
  match helpDetailFound s cmdName with
  | some sub =>
    ["Command: " ++ cmdNameOf sub.use, "Usage: " ++ sub.use] ++
      (if sub.short != "" then [sub.short] else []) ++
      (if sub.long != "" then [sub.long] else []) ++
      (if sub.aliases.length > 0 then ["Aliases: " ++ goJoin ", " sub.aliases] else [])
  | none => ["Unknown command: " ++ cmdName]

/-! ### Sequences of registry operations -/

/-- One registry call: `RegisterModule` (with a hook that does not mutate
the modelled state), `EnableModule`, or `DisableModule`. -/
inductive Op : Type where
  | register : CommandModule → Op
  | enable : String → Op
  | disable : String → Op
  deriving DecidableEq, Repr

def applyOp (s : Shell V) : Op → Shell V
  | .register m => RegisterModule s m
  | .enable n => (EnableModule s n).2
  | .disable n => (DisableModule s n).2

def applyOps (s : Shell V) (ops : List Op) : Shell V :=
  ops.foldl applyOp s

/-- The modules an operation registers. -/
def opModules : Op → List CommandModule
  | .register m => [m]
  | .enable _ => []
  | .disable _ => []

/-- Freshness of a call sequence against a shell: module names stay
pairwise distinct and every command object is contributed by exactly one
module (each `GetCommands` allocates fresh `*cobra.Command`s, so in the Go
source this only excludes registering two modules under the same name —
the latent duplicate-registration bug the spec flags). -/
def OpsFresh (s : Shell V) (ops : List Op) : Prop :=
  (((s.commandModules ++ ops.flatMap opModules).map (·.name)).Nodup) ∧
  (((s.commandModules ++ ops.flatMap opModules).flatMap (fun m => m.commands.map (·.id))).Nodup)

/-- Commands of the modules of `mods` whose name `f` marks enabled. -/
def unionOf (mods : List CommandModule) (f : String → Bool) : List Cmd :=
  (mods.filter (fun m => f m.name)).flatMap (·.commands)

/-- The union of the command descriptors of the currently enabled
modules. -/
def enabledUnion (s : Shell V) : List Cmd :=
  unionOf s.commandModules (fun n => IsModuleEnabled s n)

/-- Registry well-formedness: distinct module names, enablement-table keys
matching the registered names in order, per-module command bookkeeping
consistent with the modules, globally distinct command identities, and the
namespace invariant itself (the root command's table is, up to order, the
union of the enabled modules' commands). -/
abbrev Wf (s : Shell V) : Prop :=
  ((s.commandModules.map (·.name)).Nodup) ∧
  (s.enabledModules.map Prod.fst = s.commandModules.map (·.name)) ∧
  (∀ m ∈ s.commandModules, mapFind? s.moduleCommands m.name = some m.commands) ∧
  ((s.commandModules.flatMap (fun m => m.commands.map (·.id))).Nodup) ∧
  s.rootCommands.Perm (enabledUnion s)

/-! ### Association-list map lemmas -/

theorem find?_map_replace (l : List (String × β)) (k : String) (v : β) :
    (l.map (fun p => if p.1 == k then (k, v) else p)).find? (fun p => p.1 == k)
      = if l.any (fun p => p.1 == k) then some (k, v) else none := by
  induction l with
  | nil => rfl
  | cons p t ih =>
    by_cases hpk : p.1 == k
    · simp [hpk, List.find?]
    · simp only [List.map_cons, List.any_cons, hpk, if_neg, Bool.false_or]
      rw [List.find?_cons_of_neg _ (by simpa using hpk)]
      exact ih

theorem find?_map_replace_ne (l : List (String × β)) (k k' : String) (v : β) (h : k' ≠ k) :
    (l.map (fun p => if p.1 == k then (k, v) else p)).find? (fun p => p.1 == k')
      = l.find? (fun p => p.1 == k') := by
  induction l with
  | nil => rfl
  | cons p t ih =>
    by_cases hpk : p.1 == k
    · have hp : p.1 = k := by simpa using hpk
      have hkk' : ((k : String) == k') = false := by
        simpa using (Ne.symm h)
      simp only [List.map_cons, hpk, if_pos]
      rw [List.find?_cons_of_neg _ (by simp [hkk']),
        List.find?_cons_of_neg _ (by simp [hp, hkk'])]
      exact ih
    · simp only [List.map_cons, hpk, if_neg]
      by_cases hpk' : p.1 == k'
      · rw [List.find?_cons_of_pos _ (by simpa [hpk] using hpk'),
          List.find?_cons_of_pos _ (by simpa using hpk')]
        simp [hpk]
      · rw [List.find?_cons_of_neg _ (by simpa [hpk] using hpk'),
          List.find?_cons_of_neg _ (by simpa using hpk')]
        exact ih

theorem mapFind?_set_self (l : List (String × β)) (k : String) (v : β) :
    mapFind? (mapSet l k v) k = some v := by
  unfold mapSet mapFind?
  by_cases hany : l.any (fun p => p.1 == k)
  · rw [if_pos hany, find?_map_replace, if_pos hany]
    rfl
  · rw [if_neg hany, List.find?_append]
    have hnone : l.find? (fun p => p.1 == k) = none := by
      rw [List.find?_eq_none]
      intro p hp hc
      exact hany (List.any_eq_true.2 ⟨p, hp, hc⟩)
    simp [hnone, List.find?]

theorem mapFind?_set_ne (l : List (String × β)) (k k' : String) (v : β) (h : k' ≠ k) :
    mapFind? (mapSet l k v) k' = mapFind? l k' := by
  unfold mapSet mapFind?
  by_cases hany : l.any (fun p => p.1 == k)
  · rw [if_pos hany, find?_map_replace_ne _ _ _ _ h]
  · rw [if_neg hany, List.find?_append]
    have hkk' : ((k : String) == k') = false := by simpa using (Ne.symm h)
    simp [List.find?, hkk']

theorem mapSet_keys_of_present (l : List (String × β)) (k : String) (v : β)
    (h : l.any (fun p => p.1 == k)) :
    (mapSet l k v).map Prod.fst = l.map Prod.fst := by
  unfold mapSet
  rw [if_pos h, List.map_map]
  refine List.map_congr_left (fun p _ => ?_)
  by_cases hpk : p.1 = k
  · simp [hpk]
  · simp [hpk]

theorem mapSet_of_absent (l : List (String × β)) (k : String) (v : β)
    (h : l.any (fun p => p.1 == k) = false) :
    mapSet l k v = l ++ [(k, v)] := by
  unfold mapSet
  rw [if_neg (by simp [h])]

theorem addCommands_eq_append (root cs : List Cmd) :
    addCommands root cs = root ++ cs := by
  induction cs generalizing root with
  | nil => simp [addCommands]
  | cons c t ih =>
    show List.foldl AddCommand (AddCommand root c) t = root ++ c :: t
    rw [show List.foldl AddCommand (AddCommand root c) t = addCommands (AddCommand root c) t from rfl,
      ih]
    simp [AddCommand]

/-- The repeated `SetState` calls of a write sequence. -/
def applyWrites (s : Shell V) (writes : List (String × V)) : Shell V :=
  writes.foldl (fun s p => SetState s p.1 p.2) s

theorem getState_setState (s : Shell V) (k k' : String) (v : V) :
    GetState (SetState s k' v) k = if k' = k then some v else GetState s k := by
  by_cases h : k' = k
  · subst h
    simp [GetState, SetState, mapFind?_set_self]
  · rw [if_neg h]
    exact mapFind?_set_ne _ _ _ _ (Ne.symm h)

theorem getState_applyWrites_ne (s : Shell V) (k : String) (writes : List (String × V))
    (hw : ∀ w ∈ writes, w.1 ≠ k) :
    GetState (applyWrites s writes) k = GetState s k := by
  induction writes generalizing s with
  | nil => rfl
  | cons w t ih =>
    show GetState (applyWrites (SetState s w.1 w.2) t) k = GetState s k
    rw [ih _ (fun x hx => hw x (List.mem_cons_of_mem _ hx)),
      getState_setState, if_neg (hw w (List.mem_cons_self _ _))]

/-- C5: for every shell state, `DisableModule "core"` returns the
`ProtectedModule` error ("cannot disable core module") and leaves the shell
— in particular the Command Namespace and the Enablement Table —
unchanged. -/
theorem disableCore_protected (s : Shell V) :
    DisableModule s "core" = (some "cannot disable core module", s) :=
  rfl

/-- C6: `EnableModule` and `DisableModule` on a module name that was never
registered (and, for disable, is not "core") return the `ModuleNotFound`
error and leave the shell state unchanged. -/
theorem unregistered_module_not_found (s : Shell V) (name : String)
    (hreg : ∀ m ∈ s.commandModules, m.name ≠ name) (hcore : name ≠ "core") :
    EnableModule s name = (some ("module not found: " ++ name), s) ∧
    DisableModule s name = (some ("module not found: " ++ name), s) := by
  have hfound : moduleFound s name = false := by
    unfold moduleFound
    rw [Bool.eq_false_iff]
    intro hc
    obtain ⟨m, hm, hname⟩ := List.any_eq_true.1 hc
    exact hreg m hm (by simpa using hname)
  have hncore : (name == "core") = false := by simpa using hcore
  constructor
  · unfold EnableModule
    rw [hfound]
    rfl
  · unfold DisableModule
    rw [hncore, hfound]
    rfl

theorem unregistered_module_not_found_witness :
    (∀ m ∈ (initShell : Shell Unit).commandModules, m.name ≠ "ghost") ∧
    ("ghost" ≠ "core") ∧
    (EnableModule (initShell : Shell Unit) "ghost"
        = (some "module not found: ghost", initShell) ∧
      DisableModule (initShell : Shell Unit) "ghost"
        = (some "module not found: ghost", initShell)) :=
  ⟨by decide, by decide,
    unregistered_module_not_found (initShell : Shell Unit) "ghost" (by decide) (by decide)⟩

/-- C7: for a registered module name, calling `EnableModule` twice in
succession (and likewise `DisableModule`) yields the same Enablement
Table, Command Namespace and returned error as calling it once. -/
theorem enable_disable_idempotent (s : Shell V) (name : String)
    (hreg : name ∈ GetModules s) :
    EnableModule (EnableModule s name).2 name = EnableModule s name ∧
    DisableModule (DisableModule s name).2 name = DisableModule s name := by
  have hfound : moduleFound s name = true := by
    unfold moduleFound
    rw [List.any_eq_true]
    obtain ⟨m, hm, hname⟩ := List.mem_map.1 hreg
    exact ⟨m, hm, by simpa using hname⟩
  constructor
  · by_cases hen : IsModuleEnabled s name
    · have e1 : EnableModule s name = (none, s) := by
        simp [EnableModule, hfound, hen]
      rw [e1]
      exact e1
    · have henf : IsModuleEnabled s name = false := by simpa using hen
      have e1 : EnableModule s name = (none, { s with
          enabledModules := mapSet s.enabledModules name true
          rootCommands := addCommands s.rootCommands (mapGetD s.moduleCommands name []) }) := by
        simp [EnableModule, hfound, henf]
      rw [e1]
      show EnableModule { s with
          enabledModules := mapSet s.enabledModules name true
          rootCommands := addCommands s.rootCommands (mapGetD s.moduleCommands name []) } name
        = (none, { s with
          enabledModules := mapSet s.enabledModules name true
          rootCommands := addCommands s.rootCommands (mapGetD s.moduleCommands name []) })
      have hfound2 : moduleFound { s with
          enabledModules := mapSet s.enabledModules name true
          rootCommands := addCommands s.rootCommands (mapGetD s.moduleCommands name []) } name
          = true := hfound
      have hen2 : IsModuleEnabled { s with
          enabledModules := mapSet s.enabledModules name true
          rootCommands := addCommands s.rootCommands (mapGetD s.moduleCommands name []) } name
          = true := by
        show mapGetD (mapSet s.enabledModules name true) name false = true
        rw [mapGetD, mapFind?_set_self]
        rfl
      simp [EnableModule, hfound2, hen2]
  · by_cases hc : name = "core"
    · subst hc
      rfl
    · have hncore : (name == "core") = false := by simpa using hc
      by_cases hen : IsModuleEnabled s name
      · have e1 : DisableModule s name = (none, { s with
            enabledModules := mapSet s.enabledModules name false
            rootCommands := removeCommands s.rootCommands (mapGetD s.moduleCommands name []) }) := by
          simp [DisableModule, hncore, hfound, hen]
        rw [e1]
        show DisableModule { s with
            enabledModules := mapSet s.enabledModules name false
            rootCommands := removeCommands s.rootCommands (mapGetD s.moduleCommands name []) } name
          = (none, { s with
            enabledModules := mapSet s.enabledModules name false
            rootCommands := removeCommands s.rootCommands (mapGetD s.moduleCommands name []) })
        have hfound2 : moduleFound { s with
            enabledModules := mapSet s.enabledModules name false
            rootCommands := removeCommands s.rootCommands (mapGetD s.moduleCommands name []) } name
            = true := hfound
        have hen2 : IsModuleEnabled { s with
            enabledModules := mapSet s.enabledModules name false
            rootCommands := removeCommands s.rootCommands (mapGetD s.moduleCommands name []) } name
            = false := by
          show mapGetD (mapSet s.enabledModules name false) name false = false
          rw [mapGetD, mapFind?_set_self]
          rfl
        simp [DisableModule, hncore, hfound2, hen2]
      · have henf : IsModuleEnabled s name = false := by simpa using hen
        have e1 : DisableModule s name = (none, s) := by
          simp [DisableModule, hncore, hfound, henf]
        rw [e1]
        exact e1

theorem enable_disable_idempotent_witness :
    ("timer" ∈ GetModules (applyOps (initShell : Shell Unit) [.register timerModule])) ∧
    (EnableModule (EnableModule (applyOps (initShell : Shell Unit)
          [.register timerModule]) "timer").2 "timer"
        = EnableModule (applyOps (initShell : Shell Unit) [.register timerModule]) "timer" ∧
      DisableModule (DisableModule (applyOps (initShell : Shell Unit)
          [.register timerModule]) "timer").2 "timer"
        = DisableModule (applyOps (initShell : Shell Unit) [.register timerModule]) "timer") :=
  ⟨by decide,
    enable_disable_idempotent (applyOps (initShell : Shell Unit) [.register timerModule])
      "timer" (by decide)⟩

/-- C8: `SetState k v` followed by `GetState k`, with any (possibly empty)
sequence of writes to other keys in between, returns `some v` (Go:
`(v, true)`); `GetState` on a key never passed to `SetState` — any write
sequence from the fresh shell avoiding the key — returns `none` (Go:
`(nil, false)`). -/
theorem setState_getState_roundtrip (s : Shell V) (k : String) (v : V)
    (writes writes0 : List (String × V))
    (hw : ∀ w ∈ writes, w.1 ≠ k) (h0 : ∀ w ∈ writes0, w.1 ≠ k) :
    GetState (applyWrites (SetState s k v) writes) k = some v ∧
    GetState (applyWrites (initShell : Shell V) writes0) k = none := by
  constructor
  · rw [getState_applyWrites_ne _ _ _ hw, getState_setState, if_pos rfl]
  · rw [getState_applyWrites_ne _ _ _ h0]
    rfl

theorem setState_getState_roundtrip_witness :
    (∀ w ∈ ([("other", 5)] : List (String × Nat)), w.1 ≠ "answer") ∧
    (GetState (applyWrites (SetState (initShell : Shell Nat) "answer" 42) [("other", 5)])
        "answer" = some 42 ∧
      GetState (applyWrites (initShell : Shell Nat) [("other", 5)]) "answer" = none) :=
  ⟨by decide,
    setState_getState_roundtrip (initShell : Shell Nat) "answer" 42 [("other", 5)]
      [("other", 5)] (by decide) (by decide)⟩

/-- C9: `RegisterModule` is the module's `Initialize` hook applied to the
`registerPre` state, in which all of the module's commands are already in
the Command Namespace and the module is already marked enabled — so the
hook observes its own commands as registered and enabled. -/
theorem registerModule_hook_observes (s : Shell V) (m : CommandModule)
    (hook : Shell V → Shell V) :
    RegisterModuleWith hook s m = hook (registerPre s m) ∧
    (∀ c ∈ m.commands, c ∈ (registerPre s m).rootCommands) ∧
    IsModuleEnabled (registerPre s m) m.name = true := by
  refine ⟨rfl, ?_, ?_⟩
  · intro c hc
    show c ∈ addCommands s.rootCommands m.commands
    rw [addCommands_eq_append]
    exact List.mem_append_right _ hc
  · unfold IsModuleEnabled mapGetD
    rw [show (registerPre s m).enabledModules = mapSet s.enabledModules m.name true from rfl,
      mapFind?_set_self]
    rfl

theorem registerModule_hook_observes_witness :
    RegisterModuleWith id (initShell : Shell Unit) timerModule
        = id (registerPre (initShell : Shell Unit) timerModule) ∧
    (∀ c ∈ timerModule.commands,
        c ∈ (registerPre (initShell : Shell Unit) timerModule).rootCommands) ∧
    IsModuleEnabled (registerPre (initShell : Shell Unit) timerModule) timerModule.name
        = true :=
  registerModule_hook_observes (initShell : Shell Unit) timerModule id

theorem goTrimSpace_append_space (p : String) :
    goTrimSpace (p ++ " ") = goTrimSpace p := by
  unfold goTrimSpace
  rw [String.data_append]
  rw [show (" " : String).data = [' '] from rfl, List.reverse_append]
  rw [show ([' '] : List Char).reverse ++ p.data.reverse = ' ' :: p.data.reverse from rfl]
  rw [List.dropWhile_cons_of_pos (by rfl)]

/-- C10: `SetPrompt p` stores `p ++ " "` as the current prompt and passes
the same string to the line reader; `GetPrompt` then returns `p` with
surrounding whitespace trimmed, so for `p` with no surrounding whitespace
the round trip returns `p` exactly. -/
theorem setPrompt_getPrompt (s : Shell V) (p : String) :
    (SetPrompt s p).currentPrompt = p ++ " " ∧
    (SetPrompt s p).rlPrompt = p ++ " " ∧
    GetPrompt (SetPrompt s p) = goTrimSpace p ∧
    (goTrimSpace p = p → GetPrompt (SetPrompt s p) = p) := by
  refine ⟨rfl, rfl, ?_, ?_⟩
  · show goTrimSpace (p ++ " ") = goTrimSpace p
    exact goTrimSpace_append_space p
  · intro htrim
    show goTrimSpace (p ++ " ") = p
    rw [goTrimSpace_append_space p, htrim]

theorem setPrompt_getPrompt_witness :
    goTrimSpace "necro>" = "necro>" ∧
    GetPrompt (SetPrompt (initShell : Shell Unit) "necro>") = "necro>" :=
  ⟨by decide,
    (setPrompt_getPrompt (initShell : Shell Unit) "necro>").2.2.2 (by decide)⟩

/-! ### Exit hooks (C2) -/

theorem wrapExit_find? (root : List Cmd) (hookId : Nat) (c : Cmd)
    (hc : root.find? (fun x => cmdNameOf x.use == "exit") = some c) :
    (wrapExit root hookId).find? (fun x => cmdNameOf x.use == "exit")
      = some { c with run := .wrapped hookId c.run } := by
  induction root with
  | nil => simp [List.find?] at hc
  | cons c0 t ih =>
    by_cases h0 : cmdNameOf c0.use = "exit"
    · rw [List.find?_cons_of_pos _ (by simpa using h0)] at hc
      injection hc with hc
      subst hc
      rw [wrapExit, if_pos h0, List.find?_cons_of_pos _ (by simpa using h0)]
    · rw [List.find?_cons_of_neg _ (by simpa using h0)] at hc
      rw [wrapExit, if_neg h0, List.find?_cons_of_neg _ (by simpa using h0)]
      exact ih hc

theorem exitTrace_applyOnExits (hookIds : List Nat) (s : Shell V) (c : Cmd)
    (hc : s.rootCommands.find? (fun x => cmdNameOf x.use == "exit") = some c) :
    exitTrace (applyOnExits s hookIds)
      = some (hookIds.reverse.map Event.hook ++ runTrace c.run) := by
  induction hookIds generalizing s c with
  | nil =>
    unfold exitTrace applyOnExits
    rw [List.foldl_nil, hc]
    rfl
  | cons h t ih =>
    show exitTrace (applyOnExits (OnExit s h) t)
      = some ((h :: t).reverse.map Event.hook ++ runTrace c.run)
    rw [ih (OnExit s h) { c with run := .wrapped h c.run } (wrapExit_find? _ _ _ hc)]
    simp [runTrace, List.reverse_cons, List.map_append]

/-- C2 (amended): after a sequence of `OnExit` registrations, executing the
built-in `exit` command runs every registered hook exactly once, all before
the original exit behaviour (print "Goodbye!", `os.Exit(0)`), but in
REVERSE registration order: each `OnExit` wraps the current `Run`, so the
last hook registered fires first. -/
theorem onExit_hooks_reverse_order (s : Shell V) (hookIds : List Nat) (c : Cmd)
    (hc : s.rootCommands.find? (fun x => cmdNameOf x.use == "exit") = some c)
    (hrun : c.run = .exitAction) :
    exitTrace (applyOnExits s hookIds)
      = some (hookIds.reverse.map Event.hook ++ [.println "Goodbye!", .osExit 0]) := by
  rw [exitTrace_applyOnExits hookIds s c hc, hrun]
  rfl

theorem onExit_hooks_reverse_order_witness :
    ((initShell : Shell Unit).rootCommands.find? (fun x => cmdNameOf x.use == "exit")
        = some exitCmd) ∧
    (exitCmd.run = .exitAction) ∧
    exitTrace (applyOnExits (initShell : Shell Unit) [1, 2])
      = some [.hook 2, .hook 1, .println "Goodbye!", .osExit 0] :=
  ⟨by decide, rfl,
    onExit_hooks_reverse_order (initShell : Shell Unit) [1, 2] exitCmd (by decide) rfl⟩

/-- C2 counterexample: with two hooks registered (first 1, then 2), the
exit trace is NOT hook 1 before hook 2 — the hooks fire in reverse
registration order, [hook 2, hook 1]. -/
theorem onExit_hooks_order_counterexample :
    exitTrace (applyOnExits (initShell : Shell Unit) [1, 2])
        ≠ some (([1, 2].map Event.hook) ++ [.println "Goodbye!", .osExit 0]) ∧
    exitTrace (applyOnExits (initShell : Shell Unit) [1, 2])
        = some (([2, 1].map Event.hook) ++ [.println "Goodbye!", .osExit 0]) := by
  constructor
  · decide
  · decide

/-! ### Help detail view (C4) -/

/-- A command with an alias, as a module would register it. -/
def listCmd : Cmd :=
  { id := 20, use := "list", short := "List things", long := "", aliases := ["ls"],
    run := .other 20 }

def listModule : CommandModule :=
  { name := "lister", commands := [listCmd] }

/-- C4 (code evaluated at the failing input): `listCmd` is registered and
has alias "ls", yet the detail-view scan finds nothing for the token "ls"
and the help output is the unknown-command message: the source compares
the token against `NameAndAliases()`, cobra's comma-joined display string
("list, ls"), instead of against each alias.  A lookup by the command's
name still works, and, tellingly, so does one by the literal joined
string. -/
theorem helpDetail_alias_mismatch :
    ("ls" ∈ listCmd.aliases) ∧
    (listCmd ∈ (applyOps (initShell : Shell Unit) [.register listModule]).rootCommands) ∧
    helpDetailFound (applyOps (initShell : Shell Unit) [.register listModule]) "ls" = none ∧
    helpDetailOutput (applyOps (initShell : Shell Unit) [.register listModule]) "ls"
      = ["Unknown command: ls"] ∧
    helpDetailOutput (applyOps (initShell : Shell Unit) [.register listModule]) "list"
      = ["Command: list", "Usage: list", "List things", "Aliases: ls"] ∧
    helpDetailFound (applyOps (initShell : Shell Unit) [.register listModule]) "list, ls"
      = some listCmd := by
  refine ⟨by decide, by decide, by decide, by decide, by decide, by decide⟩

/-! ### Grouped help view (C3) -/

/-- Whether the grouped help view renders a group for `moduleName`: the
display loop skips a module when the built map has no entry for it or an
empty one. -/
def groupNonempty (s : Shell V) (moduleName : String) : Bool :=
  match modulesMapFinal s moduleName with
  | some (_ :: _) => true
  | _ => false

theorem helpGroups_map_fst (s : Shell V) (iter : List (String × Bool)) :
    (helpGroups s iter).map Prod.fst
      = (GetEnabledModulesIter iter).filter (groupNonempty s) := by
  unfold helpGroups
  generalize GetEnabledModulesIter iter = l
  induction l with
  | nil => rfl
  | cons n t ih =>
    rw [List.filterMap_cons, List.filter_cons]
    cases hm : modulesMapFinal s n with
    | none =>
      have hg : groupNonempty s n = false := by simp [groupNonempty, hm]
      simp [hm, hg, ih]
    | some cmds =>
      cases cmds with
      | nil =>
        have hg : groupNonempty s n = false := by simp [groupNonempty, hm]
        simp [hm, hg, ih]
      | cons c cs =>
        have hg : groupNonempty s n = true := by simp [groupNonempty, hm]
        simp [hm, hg, ih]

theorem assocMem_iff_mapFind? (l : List (String × β)) (hnd : (l.map Prod.fst).Nodup)
    (k : String) (v : β) : (k, v) ∈ l ↔ mapFind? l k = some v := by
  induction l with
  | nil => simp [mapFind?, List.find?]
  | cons p t ih =>
    rw [List.map_cons, List.nodup_cons] at hnd
    by_cases hpk : p.1 = k
    · have hfind : mapFind? (p :: t) k = some p.2 := by
        unfold mapFind?
        rw [List.find?_cons_of_pos _ (by simpa using hpk)]
        rfl
      rw [hfind]
      constructor
      · intro hmem
        rcases List.mem_cons.1 hmem with heq | hmem
        · rw [← heq]
        · have hk : k ∈ t.map Prod.fst := List.mem_map.2 ⟨(k, v), hmem, rfl⟩
          exact absurd hk (hpk ▸ hnd.1)
      · intro hv
        injection hv with h2
        exact List.mem_cons.2 (Or.inl (by rw [← hpk, ← h2]))
    · have hfind : mapFind? (p :: t) k = mapFind? t k := by
        unfold mapFind?
        rw [List.find?_cons_of_neg _ (by simpa using hpk)]
      rw [hfind, ← ih hnd.2]
      constructor
      · intro hmem
        rcases List.mem_cons.1 hmem with heq | hmem
        · exact absurd (congrArg Prod.fst heq.symm) hpk
        · exact hmem
      · exact fun hmem => List.mem_cons_of_mem p hmem

theorem isEnabled_iff_mem (s : Shell V) (hnd : (s.enabledModules.map Prod.fst).Nodup)
    (n : String) : IsModuleEnabled s n = true ↔ (n, true) ∈ s.enabledModules := by
  unfold IsModuleEnabled mapGetD
  rw [assocMem_iff_mapFind? s.enabledModules hnd n true]
  cases mapFind? s.enabledModules n with
  | none => simp
  | some b => cases b <;> simp

theorem mem_getEnabledModulesIter (iter : List (String × Bool)) (n : String) :
    n ∈ GetEnabledModulesIter iter ↔ (n, true) ∈ iter := by
  unfold GetEnabledModulesIter
  constructor
  · intro h
    obtain ⟨p, hp, hfst⟩ := List.mem_map.1 h
    have hf := List.mem_filter.1 hp
    have hpair : p = (n, true) := Prod.ext hfst (by simpa using hf.2)
    exact hpair ▸ hf.1
  · intro h
    exact List.mem_map.2 ⟨(n, true), List.mem_filter.2 ⟨h, rfl⟩, rfl⟩

/-- C3 (amended): with a well-formed registry, the module-grouped help
listing renders exactly one group per enabled module whose collected
command list is nonempty — in particular one for every enabled module that
contributed at least one command — but the groups appear in the
(unspecified) iteration order of the Enablement Table's Go map, as
`GetEnabledModules` ranges over it, not necessarily in module registration
order. -/
theorem helpGroups_structure (s : Shell V) (iter : List (String × Bool))
    (hwf : Wf s) (hiter : iter.Perm s.enabledModules) :
    ((helpGroups s iter).map Prod.fst
        = (GetEnabledModulesIter iter).filter (groupNonempty s)) ∧
    ((helpGroups s iter).map Prod.fst).Nodup ∧
    (∀ n, n ∈ (helpGroups s iter).map Prod.fst
        ↔ (IsModuleEnabled s n = true ∧ groupNonempty s n = true)) ∧
    (∀ m ∈ s.commandModules, IsModuleEnabled s m.name = true → m.commands ≠ [] →
        groupNonempty s m.name = true) := by
  obtain ⟨hnames, hkeys, hmc, hids, hperm⟩ := hwf
  have hkeysnd : (s.enabledModules.map Prod.fst).Nodup := by
    rw [hkeys]
    exact hnames
  have hiterkeys : (iter.map Prod.fst).Nodup :=
    ((hiter.map Prod.fst).nodup_iff).2 hkeysnd
  have hgeNodup : (GetEnabledModulesIter iter).Nodup := by
    unfold GetEnabledModulesIter
    exact hiterkeys.sublist ((List.filter_sublist iter).map Prod.fst)
  refine ⟨helpGroups_map_fst s iter, ?_, ?_, ?_⟩
  · rw [helpGroups_map_fst s iter]
    exact hgeNodup.sublist (List.filter_sublist (GetEnabledModulesIter iter))
  · intro n
    rw [helpGroups_map_fst s iter, List.mem_filter, mem_getEnabledModulesIter,
      hiter.mem_iff, ← isEnabled_iff_mem s hkeysnd n]
  · intro m hm hen hne
    have hentry : modulesMapEntry s m.name
        = some (m.commands.filterMap (presentLookup s)) := by
      unfold modulesMapEntry
      rw [if_pos hen, hmc m hm]
      rfl
    obtain ⟨c, hc⟩ := List.exists_mem_of_ne_nil m.commands hne
    have hcroot : c ∈ s.rootCommands := by
      rw [hperm.mem_iff]
      unfold enabledUnion unionOf
      exact List.mem_flatMap.2 ⟨m, List.mem_filter.2 ⟨hm, hen⟩, hc⟩
    have hlookup : (presentLookup s c).isSome := by
      unfold presentLookup
      rw [List.find?_isSome]
      exact ⟨c, hcroot, by simp⟩
    have hfm : m.commands.filterMap (presentLookup s) ≠ [] := by
      intro hnil
      have := (List.filterMap_eq_nil_iff).1 hnil c hc
      rw [this] at hlookup
      exact Bool.noConfusion hlookup
    have hfinal : ∃ l, modulesMapFinal s m.name = some l ∧ l ≠ [] := by
      unfold modulesMapFinal
      cases hhelp : helpLookup s with
      | none => exact ⟨_, hentry, hfm⟩
      | some helpC =>
        show ∃ l, (if m.name = "core" then
            some (((modulesMapEntry s "core").getD []) ++ [helpC])
          else modulesMapEntry s m.name) = some l ∧ l ≠ []
        by_cases hcore : m.name = "core"
        · rw [if_pos hcore]
          exact ⟨_, rfl, by simp⟩
        · rw [if_neg hcore]
          exact ⟨_, hentry, hfm⟩
    obtain ⟨l, hl, hlne⟩ := hfinal
    unfold groupNonempty
    rw [hl]
    cases l with
    | nil => exact absurd rfl hlne
    | cons d ds => rfl

theorem helpGroups_structure_witness :
    Wf (applyOps (initShell : Shell Unit) [.register timerModule]) ∧
    (([("core", true), ("timer", true)] : List (String × Bool)).Perm
        (applyOps (initShell : Shell Unit) [.register timerModule]).enabledModules) ∧
    ((helpGroups (applyOps (initShell : Shell Unit) [.register timerModule])
          [("core", true), ("timer", true)]).map Prod.fst
        = (GetEnabledModulesIter [("core", true), ("timer", true)]).filter
            (groupNonempty (applyOps (initShell : Shell Unit) [.register timerModule])) ∧
      ((helpGroups (applyOps (initShell : Shell Unit) [.register timerModule])
          [("core", true), ("timer", true)]).map Prod.fst).Nodup ∧
      (∀ n, n ∈ (helpGroups (applyOps (initShell : Shell Unit) [.register timerModule])
            [("core", true), ("timer", true)]).map Prod.fst
          ↔ (IsModuleEnabled (applyOps (initShell : Shell Unit) [.register timerModule]) n
                = true ∧
              groupNonempty (applyOps (initShell : Shell Unit) [.register timerModule]) n
                = true)) ∧
      (∀ m ∈ (applyOps (initShell : Shell Unit) [.register timerModule]).commandModules,
          IsModuleEnabled (applyOps (initShell : Shell Unit) [.register timerModule]) m.name
              = true →
            m.commands ≠ [] →
            groupNonempty (applyOps (initShell : Shell Unit) [.register timerModule]) m.name
              = true)) :=
  ⟨by decide, by decide,
    helpGroups_structure (applyOps (initShell : Shell Unit) [.register timerModule])
      [("core", true), ("timer", true)] (by decide) (by decide)⟩

/-- C3 counterexample: with modules registered in order ["core", "timer"]
(both enabled), the iteration sequence [("timer", true), ("core", true)]
is a legal enumeration of the Enablement Table's Go map, and under it the
help groups come out ["timer", "core"] — not the registration order
["core", "timer"].  The code therefore does not guarantee
registration-order groups. -/
theorem helpGroups_order_counterexample :
    (([("timer", true), ("core", true)] : List (String × Bool)).Perm
        (applyOps (initShell : Shell Unit) [.register timerModule]).enabledModules) ∧
    ((helpGroups (applyOps (initShell : Shell Unit) [.register timerModule])
          [("timer", true), ("core", true)]).map Prod.fst
        = ["timer", "core"]) ∧
    ((GetModules (applyOps (initShell : Shell Unit) [.register timerModule])).filter
          (fun n => IsModuleEnabled (applyOps (initShell : Shell Unit) [.register timerModule]) n)
        = ["core", "timer"]) ∧
    (["timer", "core"] : List String) ≠ ["core", "timer"] := by
  refine ⟨by decide, by decide, by decide, by decide⟩

/-! ### Namespace invariant (C1): union bookkeeping lemmas -/

theorem mapGetD_set_self (l : List (String × β)) (k : String) (v d : β) :
    mapGetD (mapSet l k v) k d = v := by
  rw [mapGetD, mapFind?_set_self]
  rfl

theorem mapGetD_set_ne (l : List (String × β)) (k k' : String) (v d : β) (h : k' ≠ k) :
    mapGetD (mapSet l k v) k' d = mapGetD l k' d := by
  rw [mapGetD, mapFind?_set_ne _ _ _ _ h, mapGetD]

theorem unionOf_nil (f : String → Bool) : unionOf [] f = [] := rfl

theorem unionOf_cons (x : CommandModule) (t : List CommandModule) (f : String → Bool) :
    unionOf (x :: t) f = if f x.name then x.commands ++ unionOf t f else unionOf t f := by
  unfold unionOf
  rw [List.filter_cons]
  by_cases h : f x.name
  · simp [h]
  · simp [h]

theorem unionOf_congr (mods : List CommandModule) (f g : String → Bool)
    (h : ∀ m ∈ mods, f m.name = g m.name) : unionOf mods f = unionOf mods g := by
  unfold unionOf
  rw [List.filter_congr (fun m hm => h m hm)]

theorem unionOf_append (mods mods' : List CommandModule) (f : String → Bool) :
    unionOf (mods ++ mods') f = unionOf mods f ++ unionOf mods' f := by
  unfold unionOf
  rw [List.filter_append, List.flatMap_append]

/-- Flipping one registered module's flag from false to true adds exactly
that module's commands to the union, up to permutation. -/
theorem unionOf_flip_perm (mods : List CommandModule)
    (hnd : (mods.map (·.name)).Nodup) (m : CommandModule) (hm : m ∈ mods)
    (f g : String → Bool) (hf : f m.name = false) (hg : g m.name = true)
    (hfg : ∀ n, n ≠ m.name → g n = f n) :
    (unionOf mods g).Perm (m.commands ++ unionOf mods f) := by
  induction mods with
  | nil => cases hm
  | cons x t ih =>
    rw [List.map_cons, List.nodup_cons] at hnd
    rcases List.mem_cons.1 hm with heq | hmt
    · subst heq
      rw [unionOf_cons, unionOf_cons, if_pos hg, if_neg (by simp [hf])]
      have hcong : unionOf t g = unionOf t f := by
        apply unionOf_congr
        intro m' hm'
        apply hfg
        intro hne
        exact hnd.1 (hne ▸ List.mem_map_of_mem (·.name) hm')
      rw [hcong]
    · have hxname : x.name ≠ m.name := by
        intro hx
        exact hnd.1 (hx ▸ List.mem_map_of_mem (·.name) hmt)
      rw [unionOf_cons, unionOf_cons, hfg x.name hxname]
      by_cases hx : f x.name
      · rw [if_pos hx, if_pos hx]
        exact ((ih hnd.2 hmt).append_left x.commands).trans
          (List.perm_append_comm_assoc x.commands m.commands (unionOf t f))
      · rw [if_neg hx, if_neg hx]
        exact ih hnd.2 hmt

theorem removeCommands_eq_filter (root cs : List Cmd) :
    removeCommands root cs
      = root.filter (fun x => !(cs.any (fun c => x.id == c.id))) := by
  induction cs generalizing root with
  | nil => simp [removeCommands]
  | cons c t ih =>
    show removeCommands (RemoveCommand root c) t = _
    rw [ih]
    unfold RemoveCommand
    rw [List.filter_filter]
    apply List.filter_congr
    intro x _
    simp only [List.any_cons, Bool.not_or]
    rw [Bool.and_comm]

theorem moduleFound_exists (s : Shell V) (name : String) (h : moduleFound s name = true) :
    ∃ m ∈ s.commandModules, m.name = name := by
  obtain ⟨m, hm, hname⟩ := List.any_eq_true.1 h
  exact ⟨m, hm, by simpa using hname⟩

theorem keys_present_of_mem (s : Shell V)
    (hkeys : s.enabledModules.map Prod.fst = s.commandModules.map (·.name))
    (m : CommandModule) (hm : m ∈ s.commandModules) :
    s.enabledModules.any (fun p => p.1 == m.name) = true := by
  rw [List.any_eq_true]
  have hmem : m.name ∈ s.enabledModules.map Prod.fst := by
    rw [hkeys]
    exact List.mem_map_of_mem _ hm
  obtain ⟨p, hp, hpeq⟩ := List.mem_map.1 hmem
  exact ⟨p, hp, by simp [hpeq]⟩

theorem wf_enable (s : Shell V) (name : String) (hwf : Wf s) :
    Wf (EnableModule s name).2 := by
  obtain ⟨hnames, hkeys, hmc, hids, hperm⟩ := hwf
  by_cases hfound : moduleFound s name
  · by_cases hen : IsModuleEnabled s name
    · have h2 : (EnableModule s name).2 = s := by simp [EnableModule, hfound, hen]
      rw [h2]
      exact ⟨hnames, hkeys, hmc, hids, hperm⟩
    · have henf : IsModuleEnabled s name = false := by simpa using hen
      have h2 : (EnableModule s name).2 = { s with
          enabledModules := mapSet s.enabledModules name true
          rootCommands := addCommands s.rootCommands (mapGetD s.moduleCommands name []) } := by
        simp [EnableModule, hfound, henf]
      rw [h2]
      obtain ⟨m, hm, hmname⟩ := moduleFound_exists s name hfound
      subst hmname
      have hcmds : mapGetD s.moduleCommands m.name [] = m.commands := by
        rw [mapGetD, hmc m hm]
        rfl
      refine ⟨hnames, ?_, hmc, hids, ?_⟩
      · show (mapSet s.enabledModules m.name true).map Prod.fst = _
        rw [mapSet_keys_of_present _ _ _ (keys_present_of_mem s hkeys m hm), hkeys]
      · show (addCommands s.rootCommands (mapGetD s.moduleCommands m.name [])).Perm
          (unionOf s.commandModules
            (fun n => mapGetD (mapSet s.enabledModules m.name true) n false))
        rw [addCommands_eq_append, hcmds]
        have hflip := unionOf_flip_perm s.commandModules hnames m hm
          (fun n => IsModuleEnabled s n)
          (fun n => mapGetD (mapSet s.enabledModules m.name true) n false)
          henf (mapGetD_set_self s.enabledModules m.name true false)
          (fun n hne => mapGetD_set_ne s.enabledModules m.name n true false hne)
        exact ((hperm.append_right m.commands).trans List.perm_append_comm).trans hflip.symm
  · have h2 : (EnableModule s name).2 = s := by simp [EnableModule, hfound]
    rw [h2]
    exact ⟨hnames, hkeys, hmc, hids, hperm⟩

theorem wf_disable (s : Shell V) (name : String) (hwf : Wf s) :
    Wf (DisableModule s name).2 := by
  obtain ⟨hnames, hkeys, hmc, hids, hperm⟩ := hwf
  by_cases hcore : name = "core"
  · have h2 : (DisableModule s name).2 = s := by simp [DisableModule, hcore]
    rw [h2]
    exact ⟨hnames, hkeys, hmc, hids, hperm⟩
  · have hncore : (name == "core") = false := by simpa using hcore
    by_cases hfound : moduleFound s name
    · by_cases hen : IsModuleEnabled s name
      · have h2 : (DisableModule s name).2 = { s with
            enabledModules := mapSet s.enabledModules name false
            rootCommands := removeCommands s.rootCommands (mapGetD s.moduleCommands name []) } := by
          simp [DisableModule, hncore, hfound, hen]
        rw [h2]
        obtain ⟨m, hm, hmname⟩ := moduleFound_exists s name hfound
        subst hmname
        have hcmds : mapGetD s.moduleCommands m.name [] = m.commands := by
          rw [mapGetD, hmc m hm]
          rfl
        have hpairwise := (List.nodup_flatMap.1 hids).2
        refine ⟨hnames, ?_, hmc, hids, ?_⟩
        · show (mapSet s.enabledModules m.name false).map Prod.fst = _
          rw [mapSet_keys_of_present _ _ _ (keys_present_of_mem s hkeys m hm), hkeys]
        · show (removeCommands s.rootCommands (mapGetD s.moduleCommands m.name [])).Perm
            (unionOf s.commandModules
              (fun n => mapGetD (mapSet s.enabledModules m.name false) n false))
          rw [hcmds, removeCommands_eq_filter]
          have hflip := unionOf_flip_perm s.commandModules hnames m hm
            (fun n => mapGetD (mapSet s.enabledModules m.name false) n false)
            (fun n => IsModuleEnabled s n)
            (mapGetD_set_self s.enabledModules m.name false false) hen
            (fun n hne => (mapGetD_set_ne s.enabledModules m.name n false false hne).symm)
          have hstep1 : (s.rootCommands.filter
                (fun x => !(m.commands.any (fun c => x.id == c.id)))).Perm
              ((m.commands ++ unionOf s.commandModules
                  (fun n => mapGetD (mapSet s.enabledModules m.name false) n false)).filter
                (fun x => !(m.commands.any (fun c => x.id == c.id)))) :=
            (hperm.filter _).trans (hflip.filter _)
          rw [List.filter_append] at hstep1
          have hdrop : m.commands.filter
              (fun x => !(m.commands.any (fun c => x.id == c.id))) = [] := by
            rw [List.filter_eq_nil_iff]
            intro c hc
            have hany : m.commands.any (fun c' => c.id == c'.id) = true :=
              List.any_eq_true.2 ⟨c, hc, by simp⟩
            simp [hany]
          have hkeep : (unionOf s.commandModules
                (fun n => mapGetD (mapSet s.enabledModules m.name false) n false)).filter
              (fun x => !(m.commands.any (fun c => x.id == c.id)))
              = unionOf s.commandModules
                (fun n => mapGetD (mapSet s.enabledModules m.name false) n false) := by
            rw [List.filter_eq_self]
            intro c hcmem
            obtain ⟨m', hm'f, hc'⟩ := List.mem_flatMap.1 hcmem
            have hm'filter := List.mem_filter.1 hm'f
            have hm'ne : m' ≠ m := by
              intro heq
              have hval := hm'filter.2
              rw [heq] at hval
              have hval' : mapGetD (mapSet s.enabledModules m.name false) m.name false
                  = true := hval
              rw [mapGetD_set_self] at hval'
              exact Bool.noConfusion hval'
            have hdisj : (Function.onFun List.Disjoint
                  (fun mm => mm.commands.map (·.id))) m' m :=
              hpairwise.forall (fun a b h => h.symm) hm'filter.1 hm hm'ne
            have hanyf : m.commands.any (fun c' => c.id == c'.id) = false := by
              rw [Bool.eq_false_iff]
              intro hany
              obtain ⟨c', hc'', heq⟩ := List.any_eq_true.1 hany
              have hcid : c.id ∈ m'.commands.map (·.id) := List.mem_map_of_mem _ hc'
              have hcid' : c.id ∈ m.commands.map (·.id) := by
                rw [show c.id = c'.id from by simpa using heq]
                exact List.mem_map_of_mem _ hc''
              exact hdisj hcid hcid'
            simp [hanyf]
          rw [hdrop, hkeep, List.nil_append] at hstep1
          exact hstep1
      · have henf : IsModuleEnabled s name = false := by simpa using hen
        have h2 : (DisableModule s name).2 = s := by simp [DisableModule, hncore, hfound, henf]
        rw [h2]
        exact ⟨hnames, hkeys, hmc, hids, hperm⟩
    · have h2 : (DisableModule s name).2 = s := by simp [DisableModule, hncore, hfound]
      rw [h2]
      exact ⟨hnames, hkeys, hmc, hids, hperm⟩

theorem wf_registerPre (s : Shell V) (m : CommandModule) (hwf : Wf s)
    (hname : m.name ∉ s.commandModules.map (·.name))
    (hidsnew : ((s.commandModules ++ [m]).flatMap
        (fun x => x.commands.map (·.id))).Nodup) :
    Wf (registerPre s m) := by
  obtain ⟨hnames, hkeys, hmc, hids, hperm⟩ := hwf
  have habsent : s.enabledModules.any (fun p => p.1 == m.name) = false := by
    rw [Bool.eq_false_iff]
    intro hc
    obtain ⟨p, hp, hpeq⟩ := List.any_eq_true.1 hc
    have hp1 : p.1 = m.name := by simpa using hpeq
    have hmem : m.name ∈ s.enabledModules.map Prod.fst :=
      hp1 ▸ List.mem_map_of_mem Prod.fst hp
    rw [hkeys] at hmem
    exact hname hmem
  refine ⟨?_, ?_, ?_, hidsnew, ?_⟩
  · show ((s.commandModules ++ [m]).map (·.name)).Nodup
    rw [List.map_append, List.nodup_append]
    refine ⟨hnames, List.nodup_singleton m.name, ?_⟩
    intro a ha hb
    rw [show a = m.name from by simpa using hb] at ha
    exact hname ha
  · show (mapSet s.enabledModules m.name true).map Prod.fst
      = (s.commandModules ++ [m]).map (·.name)
    rw [mapSet_of_absent _ _ _ habsent, List.map_append, List.map_append, hkeys]
    rfl
  · intro m' hm'
    rcases List.mem_append.1 hm' with hml | hmr
    · have hne : m'.name ≠ m.name := by
        intro heq
        exact hname (heq ▸ List.mem_map_of_mem (·.name) hml)
      show mapFind? (mapSet s.moduleCommands m.name m.commands) m'.name = some m'.commands
      rw [mapFind?_set_ne _ _ _ _ hne]
      exact hmc m' hml
    · have heq : m' = m := by simpa using hmr
      subst heq
      show mapFind? (mapSet s.moduleCommands m'.name m'.commands) m'.name = some m'.commands
      rw [mapFind?_set_self]
  · show (addCommands s.rootCommands m.commands).Perm
      (unionOf (s.commandModules ++ [m])
        (fun n => mapGetD (mapSet s.enabledModules m.name true) n false))
    rw [addCommands_eq_append, unionOf_append]
    have hcong : unionOf s.commandModules
        (fun n => mapGetD (mapSet s.enabledModules m.name true) n false)
        = unionOf s.commandModules (fun n => IsModuleEnabled s n) := by
      apply unionOf_congr
      intro m' hm'
      apply mapGetD_set_ne
      intro heq
      exact hname (heq ▸ List.mem_map_of_mem (·.name) hm')
    have hsingle : unionOf [m]
        (fun n => mapGetD (mapSet s.enabledModules m.name true) n false)
        = m.commands := by
      rw [unionOf_cons, if_pos (mapGetD_set_self s.enabledModules m.name true false),
        unionOf_nil, List.append_nil]
    rw [hcong, hsingle]
    exact hperm.append_right m.commands

theorem enableModule_commandModules (s : Shell V) (n : String) :
    ((EnableModule s n).2).commandModules = s.commandModules := by
  unfold EnableModule
  by_cases h1 : moduleFound s n <;> by_cases h2 : IsModuleEnabled s n <;> simp [h1, h2]

theorem disableModule_commandModules (s : Shell V) (n : String) :
    ((DisableModule s n).2).commandModules = s.commandModules := by
  unfold DisableModule
  by_cases h0 : (n == "core") = true <;> by_cases h1 : moduleFound s n <;>
    by_cases h2 : IsModuleEnabled s n <;> simp [h0, h1, h2]

theorem opsFresh_skip (s : Shell V) (op : Op) (rest : List Op)
    (hcm : (applyOp s op).commandModules = s.commandModules)
    (hop : opModules op = [])
    (h : OpsFresh s (op :: rest)) : OpsFresh (applyOp s op) rest := by
  unfold OpsFresh at h ⊢
  rw [List.flatMap_cons, hop, List.nil_append] at h
  rw [hcm]
  exact h

theorem opsFresh_register_head (s : Shell V) (m : CommandModule) (rest : List Op)
    (h : OpsFresh s (.register m :: rest)) :
    (m.name ∉ s.commandModules.map (·.name)) ∧
    (((s.commandModules ++ [m]).flatMap (fun x => x.commands.map (·.id))).Nodup) ∧
    OpsFresh (RegisterModule s m) rest := by
  unfold OpsFresh at h
  rw [List.flatMap_cons] at h
  have hL : s.commandModules ++ (opModules (.register m) ++ rest.flatMap opModules)
      = (s.commandModules ++ [m]) ++ rest.flatMap opModules :=
    (List.append_assoc _ _ _).symm
  rw [hL] at h
  obtain ⟨hn, hi⟩ := h
  have hpre : ((s.commandModules ++ [m]).map (·.name)).Nodup :=
    hn.sublist ((List.sublist_append_left _ _).map _)
  refine ⟨?_, ?_, ?_⟩
  · intro hmem
    rw [List.map_append, List.nodup_append] at hpre
    exact hpre.2.2 hmem (by simp)
  · rw [List.flatMap_append] at hi
    exact hi.sublist (List.sublist_append_left _ _)
  · unfold OpsFresh
    exact ⟨hn, hi⟩

theorem wf_applyOps (ops : List Op) (s : Shell V) (hwf : Wf s)
    (hf : OpsFresh s ops) : Wf (applyOps s ops) := by
  induction ops generalizing s with
  | nil => exact hwf
  | cons op rest ih =>
    show Wf (applyOps (applyOp s op) rest)
    cases op with
    | register m =>
      obtain ⟨hname, hidsnew, hrest⟩ := opsFresh_register_head s m rest hf
      exact ih (RegisterModule s m) (wf_registerPre s m hwf hname hidsnew) hrest
    | enable n =>
      exact ih _ (wf_enable s n hwf)
        (opsFresh_skip s (.enable n) rest (enableModule_commandModules s n) rfl hf)
    | disable n =>
      exact ih _ (wf_disable s n hwf)
        (opsFresh_skip s (.disable n) rest (disableModule_commandModules s n) rfl hf)

theorem wf_emptyShell (banner : String) : Wf (emptyShell banner : Shell V) :=
  ⟨List.nodup_nil, rfl, fun m hm => absurd hm (List.not_mem_nil m),
    List.nodup_nil, List.Perm.nil⟩

theorem wf_initShell : Wf (initShell : Shell V) := by
  apply wf_registerPre (emptyShell "") coreModule (wf_emptyShell "")
  · show coreModule.name ∉ (([] : List CommandModule).map (·.name))
    decide
  · show ((([] : List CommandModule) ++ [coreModule]).flatMap
        (fun x => x.commands.map (·.id))).Nodup
    decide

/-- C1 (amended): after every sequence of `RegisterModule` /
`EnableModule` / `DisableModule` calls whose registered module names are
pairwise distinct and whose command objects are fresh (`OpsFresh` — the Go
source silently corrupts its bookkeeping when two registrations share a
name, the spec's documented latent bug), the Command Namespace is, as a
multiset, exactly the union of the command descriptors of the modules
whose Enablement Table entry is true: no descriptor of a disabled module
is present, none is missing, and no descriptor appears twice. -/
theorem namespace_invariant (ops : List Op)
    (hf : OpsFresh (initShell : Shell V) ops) :
    ((applyOps (initShell : Shell V) ops).rootCommands).Perm
        (enabledUnion (applyOps (initShell : Shell V) ops)) ∧
    (((applyOps (initShell : Shell V) ops).rootCommands).map (·.id)).Nodup := by
  obtain ⟨hnames, hkeys, hmc, hids, hperm⟩ :=
    wf_applyOps ops (initShell : Shell V) wf_initShell hf
  refine ⟨hperm, ?_⟩
  have hunion : ((enabledUnion (applyOps (initShell : Shell V) ops)).map (·.id)).Nodup := by
    unfold enabledUnion unionOf
    rw [List.map_flatMap]
    obtain ⟨hall, hpw⟩ := List.nodup_flatMap.1 hids
    exact List.nodup_flatMap.2
      ⟨fun x hx => hall x (List.mem_of_mem_filter hx),
        hpw.sublist (List.filter_sublist _)⟩
  exact ((hperm.map (·.id)).nodup_iff).2 hunion

theorem namespace_invariant_witness :
    OpsFresh (initShell : Shell Unit)
        [.register timerModule, .disable "timer", .enable "timer"] ∧
    (((applyOps (initShell : Shell Unit)
          [.register timerModule, .disable "timer", .enable "timer"]).rootCommands).Perm
        (enabledUnion (applyOps (initShell : Shell Unit)
          [.register timerModule, .disable "timer", .enable "timer"])) ∧
      (((applyOps (initShell : Shell Unit)
          [.register timerModule, .disable "timer", .enable "timer"]).rootCommands).map
            (·.id)).Nodup) :=
  ⟨⟨by decide, by decide⟩,
    namespace_invariant [.register timerModule, .disable "timer", .enable "timer"]
      ⟨by decide, by decide⟩⟩

/-- Two modules registered under the same name, with distinct command
objects: the second registration overwrites the bookkeeping entry. -/
def dupCmdA : Cmd :=
  { id := 30, use := "alpha", short := "First", long := "", aliases := [], run := .other 30 }

def dupCmdB : Cmd :=
  { id := 31, use := "beta", short := "Second", long := "", aliases := [], run := .other 31 }

def dupOps : List Op :=
  [.register { name := "dup", commands := [dupCmdA] },
   .register { name := "dup", commands := [dupCmdB] },
   .disable "dup"]

/-- C1 counterexample: registering two modules under the name "dup" and
then disabling "dup" leaves `dupCmdA` — a command of a now-disabled module
— in the Command Namespace, because the second registration overwrote the
per-module command bookkeeping; the namespace is then not the union of the
enabled modules' descriptors, refuting the claim for arbitrary call
sequences. -/
theorem namespace_invariant_counterexample :
    IsModuleEnabled (applyOps (initShell : Shell Unit) dupOps) "dup" = false ∧
    dupCmdA ∈ (applyOps (initShell : Shell Unit) dupOps).rootCommands ∧
    ¬ (((applyOps (initShell : Shell Unit) dupOps).rootCommands).Perm
        (enabledUnion (applyOps (initShell : Shell Unit) dupOps))) := by
  refine ⟨by decide, by decide, by decide⟩

end GoCmd2
